import Mathlib

/-!
Verification of the alignment-and-playback core of the practice-scoring
web client (app/page.tsx and lib/speechace.ts).

The TypeScript source is shallowly embedded:
* JS numbers are modelled as exact rationals extended with NaN and the two
  infinities (`JsNum`); float rounding is idealised away.
* JS values reaching the dynamically-typed (`any`) code paths are modelled
  by the inductive `JsVal`.
* Property access that can raise a `TypeError` (access on null/undefined,
  calling a string method on a non-string) is modelled in `Except Unit`;
  access guarded by `?.` in the source is total (`jsGetOpt`).
* Strings are `List Char`; `String.prototype.toLowerCase` is modelled as
  ASCII lowering (the characters the claims observe are ASCII).
-/

/-- A JavaScript number: NaN, ±Infinity, or a finite value (idealised as ℚ). -/
inductive JsNum where
  | nan : JsNum
  | inf : JsNum
  | ninf : JsNum
  | fin : ℚ → JsNum
deriving DecidableEq, Repr

namespace JsNum

/-- `Number.isFinite`. -/
def isFinite : JsNum → Bool
  | fin _ => true
  | _ => false

/-- JS multiplication (NaN-propagating; `0 * ±∞ = NaN`). -/
def mul : JsNum → JsNum → JsNum
  | nan, _ => nan
  | _, nan => nan
  | fin a, fin b => fin (a * b)
  | inf, fin b => if 0 < b then inf else if b < 0 then ninf else nan
  | fin a, inf => if 0 < a then inf else if a < 0 then ninf else nan
  | ninf, fin b => if 0 < b then ninf else if b < 0 then inf else nan
  | fin a, ninf => if 0 < a then ninf else if a < 0 then inf else nan
  | inf, inf => inf
  | inf, ninf => ninf
  | ninf, inf => ninf
  | ninf, ninf => inf

/-- JS addition (NaN-propagating; `∞ + (−∞) = NaN`). -/
def add : JsNum → JsNum → JsNum
  | nan, _ => nan
  | _, nan => nan
  | fin a, fin b => fin (a + b)
  | inf, ninf => nan
  | ninf, inf => nan
  | inf, _ => inf
  | _, inf => inf
  | ninf, _ => ninf
  | _, ninf => ninf

/-- JS `<` comparison: false whenever NaN is involved. -/
def ltb : JsNum → JsNum → Bool
  | nan, _ => false
  | _, nan => false
  | fin a, fin b => a < b
  | ninf, ninf => false
  | inf, inf => false
  | ninf, _ => true
  | _, inf => true
  | inf, _ => false
  | _, ninf => false

/-- JS `<=` comparison: false whenever NaN is involved. -/
def leb : JsNum → JsNum → Bool
  | nan, _ => false
  | _, nan => false
  | fin a, fin b => a ≤ b
  | ninf, _ => true
  | _, inf => true
  | inf, _ => false
  | _, ninf => false

/-- `Math.max` on two arguments: NaN if either argument is NaN. -/
def max2 : JsNum → JsNum → JsNum
  | nan, _ => nan
  | _, nan => nan
  | fin a, fin b => fin (max a b)
  | inf, _ => inf
  | _, inf => inf
  | ninf, b => b
  | a, ninf => a

/-- JS truthiness of a number: NaN and 0 are falsy. -/
def truthy : JsNum → Bool
  | nan => false
  | fin q => q ≠ 0
  | _ => true

end JsNum

/-- A JavaScript value as it appears in the `any`-typed scoring payloads. -/
inductive JsVal where
  | null : JsVal
  | undef : JsVal
  | bool : Bool → JsVal
  | num : JsNum → JsVal
  | str : List Char → JsVal
  | arr : List JsVal → JsVal
  | obj : List (String × JsVal) → JsVal

namespace JsVal

/-- `v == null` (matches both `null` and `undefined`). -/
def nullish : JsVal → Bool
  | null => true
  | undef => true
  | _ => false

/-- JS truthiness. -/
def truthy : JsVal → Bool
  | null => false
  | undef => false
  | bool b => b
  | num n => n.truthy
  | str s => !s.isEmpty
  | arr _ => true
  | obj _ => true

/-- First binding of a field name in an object literal. -/
def lookupField : List (String × JsVal) → String → Option JsVal
  | [], _ => none
  | (k, v) :: rest, name => if k = name then some v else lookupField rest name

/--
Optional-chained property access `v?.name`: `undefined` when `v` is
nullish, the field (or `undefined`) on objects, `undefined` on other
primitives and arrays (none of the accessed field names exists on them).
-/
def jsGetOpt (v : JsVal) (name : String) : JsVal :=
  match v with
  | obj fs => (lookupField fs name).getD undef
  | _ => undef

/--
Plain property access `v.name`: a `TypeError` when `v` is nullish,
otherwise as `jsGetOpt`.
-/
def jsGet (v : JsVal) (name : String) : Except Unit JsVal :=
  match v with
  | null => .error ()
  | undef => .error ()
  | w => .ok (w.jsGetOpt name)

/-- `a || b`. -/
def jsOr (a b : JsVal) : JsVal := if a.truthy then a else b

/-- `a ?? b`. -/
def jsCoalesce (a b : JsVal) : JsVal := if a.nullish then b else a

/-- `Array.isArray`. -/
def isArr : JsVal → Bool
  | arr _ => true
  | _ => false

end JsVal

/-! ## Characters and strings -/

/-- The character set of the JS `\s` class (also used by `String.prototype.trim`). -/
def isSpaceJS (c : Char) : Bool :=
  let n := c.toNat
  (9 ≤ n && n ≤ 13) || n = 32 || n = 0xa0 || n = 0x1680 ||
    (0x2000 ≤ n && n ≤ 0x200a) || n = 0x2028 || n = 0x2029 ||
    n = 0x202f || n = 0x205f || n = 0x3000 || n = 0xfeff

/-- The ASCII alphanumeric class `[A-Za-z0-9]` of the tokenizer regexps. -/
def isAsciiAlnum (c : Char) : Bool :=
  let n := c.toNat
  (65 ≤ n && n ≤ 90) || (97 ≤ n && n ≤ 122) || (48 ≤ n && n ≤ 57)

/-- The apostrophe class of the word regexp (straight U+0027 and curly U+2019). -/
def isApostrophe (c : Char) : Bool := c.toNat = 39 || c.toNat = 0x2019

/-- The quote class removed by `normalizeWord`. -/
def isQuoteCh (c : Char) : Bool :=
  let n := c.toNat
  n = 0x201c || n = 0x201d || n = 34 || n = 0x2018 || n = 0x2019 || n = 39 || n = 96

/-- `String.prototype.toLowerCase`, modelled as ASCII lowering. -/
def toLowerStr (s : List Char) : List Char := s.map Char.toLower

/-- `String.prototype.trim`. -/
def trimStr (s : List Char) : List Char :=
  ((s.dropWhile isSpaceJS).reverse.dropWhile isSpaceJS).reverse

/--
`normalizeWord` from app/page.tsx: lowercase, strip the quote characters,
strip everything outside `[a-z0-9]` (the `i` flag also keeps `A-Z`, but
lowering has already removed those), trim.
-/
def normalizeWord (s : List Char) : List Char :=
  trimStr (((toLowerStr s).filter (fun c => !isQuoteCh c)).filter isAsciiAlnum)

/--
`normalizeWord(v || "")` applied to an arbitrary JS value, as the aligner
does on `list[k]?.word || ""`: a truthy non-string has no `toLowerCase`
method, so the call raises a `TypeError`.
-/
def normalizeWordJs (v : JsVal) : Except Unit (List Char) :=
  match v.jsOr (.str []) with
  | .str s => .ok (normalizeWord s)
  | _ => .error ()

/-! ## `Number(string)` (decimal forms; hex/octal/binary literals elided) -/

/-- Value of a digit string. -/
def natOfDigits (l : List Char) : Nat :=
  l.foldl (fun a c => a * 10 + (c.toNat - 48)) 0

/-- Split a numeral body at the first exponent marker. -/
def splitExp (s : List Char) : List Char × Option (List Char) :=
  match s.span (fun c => !(c = 'e' || c = 'E')) with
  | (m, []) => (m, none)
  | (m, _ :: rest) => (m, some rest)

/-- Parse `digits [. digits]` (at least one digit in total). -/
def parseMant (l : List Char) : Option ℚ :=
  match l.span Char.isDigit with
  | (ip, []) => if ip.isEmpty then none else some (natOfDigits ip)
  | (ip, c :: fp) =>
    if c = '.' && fp.all Char.isDigit && !(ip.isEmpty && fp.isEmpty) then
      some ((natOfDigits ip : ℚ) + (natOfDigits fp : ℚ) / (10 ^ fp.length))
    else none

/-- Parse a signed decimal integer (the exponent part). -/
def parseSignedInt (l : List Char) : Option ℤ :=
  let (neg, body) :=
    match l with
    | c :: rest =>
      if c = '-' then (true, rest) else if c = '+' then (false, rest) else (false, l)
    | [] => (false, l)
  if !body.isEmpty && body.all Char.isDigit then
    some (if neg then -(natOfDigits body : ℤ) else (natOfDigits body : ℤ))
  else none

/-- `Number()` applied to a string (decimal and Infinity forms). -/
def jsParseNumber (s : List Char) : JsNum :=
  let t := trimStr s
  if t.isEmpty then .fin 0
  else
    let (neg, body) :=
      match t with
      | c :: rest =>
        if c = '-' then (true, rest) else if c = '+' then (false, rest) else (false, t)
      | [] => (false, t)
    if body = "Infinity".toList then (if neg then .ninf else .inf)
    else
      let (m, e) := splitExp body
      match parseMant m, e with
      | some q, none => .fin (if neg then -q else q)
      | some q, some ex =>
        match parseSignedInt ex with
        | some k => .fin ((if neg then -q else q) * (10 : ℚ) ^ k)
        | none => .nan
      | none, _ => .nan

/-! ## lib/speechace.ts -/

/--
`getWordScoreList` from lib/speechace.ts: a `??`-chain over four field
paths (each step `?.`-guarded), then `Array.isArray(candidates) ?
candidates : []`.
-/
def getWordScoreList (speechace : JsVal) : List JsVal :=
  let c1 := ((speechace.jsGetOpt "text_score").jsGetOpt "speechace_score").jsGetOpt "word_score_list"
  let c2 := (speechace.jsGetOpt "text_score").jsGetOpt "word_score_list"
  let c3 := (speechace.jsGetOpt "speechace_score").jsGetOpt "word_score_list"
  let c4 := speechace.jsGetOpt "word_score_list"
  let candidates := c1.jsCoalesce (c2.jsCoalesce (c3.jsCoalesce (c4.jsCoalesce .null)))
  match candidates with
  | .arr xs => xs
  | _ => []

/--
`toNumberSec` from lib/speechace.ts: null for nullish input, `Number()`
on strings, NaN for other non-numbers; null unless finite; divide by
1000 when the value exceeds 1000.
-/
def toNumberSec (x : JsVal) : Option ℚ :=
  if x.nullish then none
  else
    let n : JsNum :=
      match x with
      | .str s => jsParseNumber s
      | .num m => m
      | _ => .nan
    match n with
    | .fin q => some (if 1000 < q then q / 1000 else q)
    | _ => none

/-- The `{startSec, endSec}` pair built by the timing resolvers. -/
structure WordTiming where
  startSec : JsNum
  endSec : JsNum
deriving DecidableEq, Repr

/--
`timingFromItem` from lib/speechace.ts. The unguarded accesses
`item.start_time` / `item.end_time` raise a `TypeError` when `item` is
nullish; `undefined` (no interval) is modelled as `none`.
-/
def timingFromItemE (item : JsVal) : Except Unit (Option WordTiming) := do
  let st ← item.jsGet "start_time"
  let sv ← if st.nullish then item.jsGet "start" else pure st
  let et ← item.jsGet "end_time"
  let ev ← if et.nullish then item.jsGet "end" else pure et
  match toNumberSec sv, toNumberSec ev with
  | some s, some e => pure (some ⟨.fin (max 0 s), .fin (max 0 e)⟩)
  | _, _ => pure none

/--
`timingFromPhoneExtents` from app/page.tsx: SpeechAce phone extents are
10 ms ticks; `startSec = max(0, extent_first[0] * 0.01)`,
`endSec = max(startSec + 0.02, extent_last[1] * 0.01)`.
-/
def timingFromPhoneExtents (phoneScoreList : List JsVal) : Option WordTiming :=
  match phoneScoreList with
  | [] => none
  | first :: rest =>
    let last := rest.getLastD first
    let s : Option (List JsVal) :=
      match first.jsGetOpt "extent" with
      | .arr xs => some xs
      | _ => none
    let e : Option (List JsVal) :=
      match last.jsGetOpt "extent" with
      | .arr xs => some xs
      | _ => none
    match s, e with
    | some sx, some ex =>
      let start10 : Option JsNum :=
        match sx.getD 0 .undef with
        | .num n => some n
        | _ => none
      let end10 : Option JsNum :=
        match ex.getD 1 .undef with
        | .num n => some n
        | _ => none
      match start10, end10 with
      | some a, some b =>
        let startSec := JsNum.max2 (.fin 0) (a.mul (.fin (1/100)))
        let endSec := JsNum.max2 (startSec.add (.fin (1/50))) (b.mul (.fin (1/100)))
        some ⟨startSec, endSec⟩
      | _, _ => none
    | _, _ => none

/-! ## Tokenizer (app/page.tsx) -/

/-- One raw token of the tokenizer regexp alternation. -/
inductive RawToken where
  | space : List Char → RawToken
  | word : List Char → RawToken
  | punct : List Char → RawToken
deriving DecidableEq, Repr

/-- The text of a raw token. -/
def RawToken.text : RawToken → List Char
  | .space s => s
  | .word s => s
  | .punct s => s

/-- Whether a raw token is a word token. -/
def RawToken.isWord : RawToken → Bool
  | .word _ => true
  | _ => false

/--
Greedy match of the word alternation `[A-Za-z0-9]+(?:['’][A-Za-z0-9]+)?`
starting at an alphanumeric character `c`: the maximal alphanumeric run,
then optionally one apostrophe followed by a non-empty alphanumeric run.
Returns the matched text and the rest of the input.
-/
def wordSpan (c : Char) (cs : List Char) : List Char × List Char :=
  let (w, rest) := cs.span isAsciiAlnum
  match rest with
  | a :: rest' =>
    if isApostrophe a then
      let (w2, rest2) := rest'.span isAsciiAlnum
      if w2.isEmpty then (c :: w, rest) else (c :: w ++ a :: w2, rest2)
    else (c :: w, rest)
  | [] => (c :: w, [])

theorem wordSpan_append (c : Char) (cs : List Char) :
    (wordSpan c cs).1 ++ (wordSpan c cs).2 = c :: cs := by
  unfold wordSpan
  rw [List.span_eq_take_drop]
  simp only []
  rcases h : cs.dropWhile isAsciiAlnum with _ | ⟨a, rest'⟩
  · simp [← h, List.takeWhile_append_dropWhile]
  · dsimp only
    by_cases ha : isApostrophe a = true
    · rw [if_pos ha, List.span_eq_take_drop]
      by_cases hw2 : (rest'.takeWhile isAsciiAlnum).isEmpty = true
      · rw [if_pos hw2]
        rw [← h, List.cons_append, List.takeWhile_append_dropWhile]
      · rw [if_neg hw2]
        have hsplit : a :: (rest'.takeWhile isAsciiAlnum ++ rest'.dropWhile isAsciiAlnum) =
            a :: rest' := by rw [List.takeWhile_append_dropWhile]
        calc c :: (cs.takeWhile isAsciiAlnum ++ a :: rest'.takeWhile isAsciiAlnum)
              ++ rest'.dropWhile isAsciiAlnum
            = c :: (cs.takeWhile isAsciiAlnum ++
                (a :: (rest'.takeWhile isAsciiAlnum ++ rest'.dropWhile isAsciiAlnum))) := by
              simp
          _ = c :: cs := by rw [hsplit, ← h, List.takeWhile_append_dropWhile]
    · rw [if_neg ha]
      rw [← h, List.cons_append, List.takeWhile_append_dropWhile]

theorem length_dropWhile_le (p : Char → Bool) (l : List Char) :
    (l.dropWhile p).length ≤ l.length := by
  induction l with
  | nil => simp [List.dropWhile]
  | cons a l ih =>
    rw [List.dropWhile]
    cases p a
    · simp
    · simp
      omega

theorem wordSpan_snd_length (c : Char) (cs : List Char) :
    (wordSpan c cs).2.length ≤ cs.length := by
  unfold wordSpan
  rw [List.span_eq_take_drop]
  simp only []
  rcases h : cs.dropWhile isAsciiAlnum with _ | ⟨a, rest'⟩
  · simp
  · dsimp only
    have hlen : (a :: rest').length ≤ cs.length := by
      rw [← h]; exact length_dropWhile_le _ _
    by_cases ha : isApostrophe a = true
    · rw [if_pos ha, List.span_eq_take_drop]
      by_cases hw2 : (rest'.takeWhile isAsciiAlnum).isEmpty = true
      · rw [if_pos hw2]
        simpa using hlen
      · rw [if_neg hw2]
        have h2 : (rest'.dropWhile isAsciiAlnum).length ≤ rest'.length :=
          length_dropWhile_le _ _
        simp only [List.length_cons] at hlen
        simpa using by omega
    · rw [if_neg ha]
      simpa using hlen

/--
The tokenizer loop of `tokenizeAndAttach` in app/page.tsx: repeated
leftmost matching of
`(\s+)|([A-Za-z0-9]+(?:['’][A-Za-z0-9]+)?)|([^A-Za-z0-9\s]+)`.
The three character classes cover every character, so each step consumes
the maximal run of the class of the current head.
-/
def tokenizeRaw : List Char → List RawToken
  | [] => []
  | c :: cs =>
    if isSpaceJS c then
      let r := cs.span isSpaceJS
      RawToken.space (c :: r.1) :: tokenizeRaw r.2
    else if isAsciiAlnum c then
      let r := wordSpan c cs
      RawToken.word r.1 :: tokenizeRaw r.2
    else
      let r := cs.span (fun d => !isAsciiAlnum d && !isSpaceJS d)
      RawToken.punct (c :: r.1) :: tokenizeRaw r.2
termination_by l => l.length
decreasing_by
  · simp only [List.span_eq_take_drop, List.length_cons]
    have := length_dropWhile_le isSpaceJS cs
    omega
  · simp only [List.length_cons]
    have := wordSpan_snd_length c cs
    omega
  · simp only [List.span_eq_take_drop, List.length_cons]
    have := length_dropWhile_le (fun d => !isAsciiAlnum d && !isSpaceJS d) cs
    omega

/--
`usedText.match(/[A-Za-z0-9]+(?:['’][A-Za-z0-9]+)?/g) || []`: the global
word matches, in order (the scanner advances one character at a time until
an alphanumeric character starts a match).
-/
def matchWords : List Char → List (List Char)
  | [] => []
  | c :: cs =>
    if isAsciiAlnum c then
      let r := wordSpan c cs
      r.1 :: matchWords r.2
    else matchWords cs
termination_by l => l.length
decreasing_by
  · have := wordSpan_snd_length c cs
    simp only [List.length_cons]
    omega
  · simp

/-! ## Word-score aligner (buildWordDisplays, app/page.tsx) -/

/--
The bounded lookahead of `buildWordDisplays`: scan `list[k]` for
`k ∈ [j, min(list.length, j+4))`, returning the first index whose
normalized `word` field is non-empty and equals `norm`
(`normalizeWord(list[k]?.word || "")` raises a `TypeError` on a truthy
non-string `word` field).
-/
def windowScan (list : List JsVal) (norm : List Char) (k stop : Nat) :
    Except Unit (Option Nat) :=
  if k < stop then do
    let cand ← normalizeWordJs ((list.getD k .undef).jsGetOpt "word")
    if !cand.isEmpty && cand = norm then pure (some k)
    else windowScan list norm (k + 1) stop
  else pure none
termination_by stop - k

/--
One iteration of the alignment loop: the window scan from the cursor `j`;
on a hit at `k`, attach `list[k]` and set the cursor to `k + 1`; otherwise
attach `list[j] || null` and set the cursor to `j + 1`
(`if (pickedIndex >= j) j = pickedIndex + 1` with `pickedIndex ≥ j`
always).
-/
def alignStep (list : List JsVal) (j : Nat) (raw : List Char) :
    Except Unit (Option JsVal × Nat) := do
  let norm := normalizeWord raw
  match ← windowScan list norm j (min list.length (j + 4)) with
  | some k => pure (some (list.getD k .undef), k + 1)
  | none =>
    let picked : Option JsVal :=
      match list[j]? with
      | some v => if v.truthy then some v else none
      | none => none
    pure (picked, j + 1)

/-- `picked?.name` where the variable `picked` holds a value or `null`. -/
def pickedField (picked : Option JsVal) (name : String) : JsVal :=
  match picked with
  | none => .undef
  | some v => v.jsGetOpt name

/-- `typeof picked?.name === "number" ? picked.name : none`. -/
def numField (picked : Option JsVal) (name : String) : Option JsNum :=
  match pickedField picked name with
  | .num n => some n
  | _ => none

/-- The quality fallback chain `quality_score`, `quality`, `score` of `buildWordDisplays`. -/
def pickQuality (picked : Option JsVal) : Option JsNum :=
  match numField picked "quality_score" with
  | some n => some n
  | none =>
    match numField picked "quality" with
    | some n => some n
    | none => numField picked "score"

/-- `Array.isArray(picked?.phone_score_list) ? picked.phone_score_list : []`. -/
def pickPhonesRaw (picked : Option JsVal) : List JsVal :=
  match pickedField picked "phone_score_list" with
  | .arr xs => xs
  | _ => []

/--
One aligned display entry. `phones` keeps the raw `phone_score_list`
entries; the per-phone display projection (string/number coercions for the
tooltip) is elided — no verified property observes it, and
`timingFromPhoneExtents` receives the raw list exactly as in the source.
-/
structure WordDisplayE where
  idx : Nat
  word : List Char
  quality : Option JsNum
  phones : List JsVal
  timing : Option WordTiming

/--
`timingFromExtent || timingFromItem(picked) || null` of `buildWordDisplays`:
the phone-extent timing if present, otherwise `timingFromItem` on `picked`
— an unguarded call that raises a `TypeError` when `picked` is `null`.
-/
def computeTiming (phonesRaw : List JsVal) (picked : Option JsVal) :
    Except Unit (Option WordTiming) :=
  match timingFromPhoneExtents phonesRaw with
  | some t => pure (some t)
  | none => timingFromItemE (picked.getD .null)

/-- The `for` loop of `buildWordDisplays` over the matched words. -/
def buildLoop (list : List JsVal) :
    List (List Char) → Nat → Nat → Except Unit (List WordDisplayE)
  | [], _, _ => pure []
  | raw :: rest, i, j => do
    let (picked, j') ← alignStep list j raw
    let quality := pickQuality picked
    let phonesRaw := pickPhonesRaw picked
    let timing ← computeTiming phonesRaw picked
    let tail ← buildLoop list rest (i + 1) j'
    pure (⟨i, raw, quality, phonesRaw, timing⟩ :: tail)

/--
`buildWordDisplays(usedText, speechace)` from app/page.tsx:
`[]` when the trimmed text is empty or the extracted score list is empty,
otherwise the alignment loop over the word matches of the text.
-/
def buildWordDisplays (usedText : List Char) (speechace : JsVal) :
    Except Unit (List WordDisplayE) :=
  let list := getWordScoreList speechace
  if (trimStr usedText).isEmpty || list.isEmpty then pure []
  else buildLoop list (matchWords usedText) 0 0

/-! ## tokenizeAndAttach (app/page.tsx) -/

/-- An attached token (`{kind, text}` plus `attach` on word tokens). -/
inductive Token where
  | space : List Char → Token
  | punct : List Char → Token
  | word : List Char → Option WordDisplayE → Token

/-- The `text` field of a token. -/
def Token.text : Token → List Char
  | .space s => s
  | .punct s => s
  | .word s _ => s

/-- Whether a token is a word token. -/
def Token.isWord : Token → Bool
  | .word _ _ => true
  | _ => false

/--
The attaching pass of `tokenizeAndAttach`: word tokens receive
`wordDisplays?.[wi] || null` (a `WordDisplayE` object is always truthy)
and advance `wi`; space and punct tokens pass through.
-/
def attachRaw (wds : List WordDisplayE) :
    List RawToken → Nat → List Token
  | [], _ => []
  | .space s :: rest, wi => .space s :: attachRaw wds rest wi
  | .punct s :: rest, wi => .punct s :: attachRaw wds rest wi
  | .word s :: rest, wi => .word s wds[wi]? :: attachRaw wds rest (wi + 1)

/-- `tokenizeAndAttach(text, wordDisplays)` from app/page.tsx. -/
def tokenizeAndAttach (text : List Char) (wds : List WordDisplayE) : List Token :=
  attachRaw wds (tokenizeRaw text) 0

/-! ## Playback scheduler (playSegment / playWord, app/page.tsx) -/

/-- One observable operation on the audio element. -/
inductive AudioAction where
  | pauseDirect : AudioAction
  | pauseTimer : Nat → AudioAction
  | seek : JsNum → AudioAction
  | play : AudioAction
deriving DecidableEq, Repr

/--
The scheduler state: `playTokenRef` (generation counter), `segmentRef`
(`{endSec, token}` or null), `segmentTimerRef` (handle of the pending
stop-timer), the pending `setTimeout` callbacks with the token each
closure captured, a fresh-handle counter, and the log of operations
performed on the audio element.
-/
structure SchedState where
  playToken : Nat
  segment : Option (JsNum × Nat)
  segTimer : Option Nat
  timers : List (Nat × Nat)
  nextId : Nat
  actions : List AudioAction
deriving DecidableEq, Repr

/-- `stopSegmentTimer()`: clear the pending stop-timer, if any. -/
def stopSegmentTimer (s : SchedState) : SchedState :=
  match s.segTimer with
  | some id => { s with timers := s.timers.filter (fun t => t.1 ≠ id), segTimer := none }
  | none => s

/--
`playSegment(startSec, endSec)`, modelled with the audio element present,
its source set and metadata ready, so that `doSeekPlay` runs to completion
with the freshly minted token still current (the interleaving of the
cancellation scenario: each call completes before the next one starts).
Steps of the source: `stopSegmentTimer(); segmentRef = null;
playTokenRef += 1; a.pause();` then in `doSeekPlay`:
`a.currentTime = max(0, startSec); segmentRef = {endSec, token};
a.play(); segmentTimerRef = setTimeout(callback, ms)`.
-/
def playSegment (s0 : SchedState) (startSec endSec : JsNum) : SchedState :=
  let s1 := stopSegmentTimer s0
  let s2 := { s1 with segment := none }
  let tok := s2.playToken + 1
  let s3 := { s2 with playToken := tok, actions := s2.actions ++ [AudioAction.pauseDirect] }
  let s4 := { s3 with actions := s3.actions ++ [AudioAction.seek (JsNum.max2 (.fin 0) startSec)] }
  let s5 := { s4 with segment := some (endSec, tok), actions := s4.actions ++ [AudioAction.play] }
  { s5 with
      timers := s5.timers ++ [(s5.nextId, tok)],
      segTimer := some s5.nextId,
      nextId := s5.nextId + 1 }

/--
Delivery of the `setTimeout` callback with handle `id`: a cleared or
already-fired handle does nothing; otherwise the callback reads
`segmentRef` and returns unless its token matches the one the closure
captured; on a match it pauses and clears `segmentRef`/`segmentTimerRef`.
-/
def fireTimer (s : SchedState) (id : Nat) : SchedState :=
  match s.timers.find? (fun t => t.1 = id) with
  | none => s
  | some (_, tok) =>
    let s1 := { s with timers := s.timers.filter (fun t => t.1 ≠ id) }
    match s1.segment with
    | none => s1
    | some (_, stok) =>
      if stok = tok then
        { s1 with
            actions := s1.actions ++ [AudioAction.pauseTimer id],
            segment := none,
            segTimer := none }
      else s1

/-- Handles are fresh and every pending callback's token was already minted. -/
def SchedInv (s : SchedState) : Prop :=
  (∀ p ∈ s.timers, p.2 ≤ s.playToken ∧ p.1 < s.nextId) ∧
    (∀ id ∈ s.segTimer, id < s.nextId)

/-- The outcome of one `playWord` call. -/
structure PlayWordOutcome where
  state : SchedState
  errNoTiming : Bool

/--
`playWord(w)` from app/page.tsx, parameterised by the result `url` of
`ensureFreshAudioUrl()` (a network call that at most sets the element
source — no seek, no play). On a null url the function returns at once;
otherwise it stops TTS and the stop-timer, and only then checks
`w.timing`: a nullish timing sets the explicit no-timing error message
and returns without calling `playSegment`; a usable timing plays
`[max(0, startSec − 0.05), max(start + 0.02, endSec)]`.
-/
def playWord (s : SchedState) (url : Option (List Char)) (w : WordDisplayE) :
    PlayWordOutcome :=
  match url with
  | none => ⟨s, false⟩
  | some _ =>
    let s1 := stopSegmentTimer s
    match w.timing with
    | none => ⟨s1, true⟩
    | some t =>
      let start := JsNum.max2 (.fin 0) (t.startSec.add (.fin (-(1/20))))
      let stop := JsNum.max2 (start.add (.fin (1/50))) t.endSec
      ⟨playSegment s1 start stop, false⟩

/-! ## Facts about ASCII lowering -/

theorem charToLower_toNat (c : Char) (h1 : 65 ≤ c.toNat) (h2 : c.toNat ≤ 90) :
    (Char.toLower c).toNat = c.toNat + 32 := by
  have hv : (c.toNat + 32).isValidChar := Or.inl (by omega)
  simp only [Char.toLower, ge_iff_le, if_pos (And.intro h1 h2)]
  rw [Char.ofNat, dif_pos hv]
  rfl

theorem charToLower_eq_self (c : Char) (h : ¬(65 ≤ c.toNat ∧ c.toNat ≤ 90)) :
    Char.toLower c = c := by
  simp only [Char.toLower]
  rw [if_neg]
  omega

theorem charToLower_not_upper (c : Char) :
    ¬(65 ≤ (Char.toLower c).toNat ∧ (Char.toLower c).toNat ≤ 90) := by
  by_cases h : 65 ≤ c.toNat ∧ c.toNat ≤ 90
  · rw [charToLower_toNat c h.1 h.2]
    omega
  · rw [charToLower_eq_self c h]
    omega

/-- A lowercase ASCII letter or digit: the only characters `normalizeWord` can emit. -/
def isLowerAlnumCh (c : Char) : Bool :=
  (97 ≤ c.toNat && c.toNat ≤ 122) || (48 ≤ c.toNat && c.toNat ≤ 57)

theorem mem_trimStr {c : Char} {s : List Char} (h : c ∈ trimStr s) : c ∈ s := by
  unfold trimStr at h
  rw [List.mem_reverse] at h
  have h2 := (List.dropWhile_sublist (l := (s.dropWhile isSpaceJS).reverse)
    (p := isSpaceJS)).subset h
  rw [List.mem_reverse] at h2
  exact (List.dropWhile_sublist (l := s) (p := isSpaceJS)).subset h2

theorem mem_normalizeWord {c : Char} {s : List Char} (h : c ∈ normalizeWord s) :
    isLowerAlnumCh c = true := by
  unfold normalizeWord at h
  have h2 := mem_trimStr h
  have h3 := List.mem_filter.mp h2
  have h4 := List.mem_filter.mp h3.1
  obtain ⟨c0, _, hc0⟩ := List.mem_map.mp h4.1
  have hup := charToLower_not_upper c0
  rw [hc0] at hup
  have halnum := h3.2
  simp only [isAsciiAlnum, Bool.or_eq_true, Bool.and_eq_true, decide_eq_true_eq] at halnum
  simp only [isLowerAlnumCh, Bool.or_eq_true, Bool.and_eq_true, decide_eq_true_eq]
  omega

theorem toLowerStr_eq_self {l : List Char} (h : ∀ c ∈ l, isLowerAlnumCh c = true) :
    toLowerStr l = l := by
  induction l with
  | nil => rfl
  | cons a t ih =>
    have ha := h a (List.mem_cons_self a t)
    simp only [isLowerAlnumCh, Bool.or_eq_true, Bool.and_eq_true, decide_eq_true_eq] at ha
    have : Char.toLower a = a := charToLower_eq_self a (by omega)
    simp only [toLowerStr, List.map_cons, this]
    have ih2 := ih (fun c hc => h c (List.mem_cons_of_mem a hc))
    simp only [toLowerStr] at ih2
    rw [ih2]

theorem dropWhile_eq_self_of {p : Char → Bool} {l : List Char}
    (h : ∀ c ∈ l, p c = false) : l.dropWhile p = l := by
  cases l with
  | nil => rfl
  | cons a t =>
    rw [List.dropWhile]
    rw [h a (List.mem_cons_self a t)]

theorem trimStr_eq_self {l : List Char} (h : ∀ c ∈ l, isSpaceJS c = false) :
    trimStr l = l := by
  unfold trimStr
  rw [dropWhile_eq_self_of h, dropWhile_eq_self_of, List.reverse_reverse]
  intro c hc
  exact h c (List.mem_reverse.mp hc)

/--
**C10.** The word-normalization function used by the aligner is idempotent:
`normalizeWord (normalizeWord s) = normalizeWord s` for every string `s`.
-/
theorem c10_normalizeWord_idempotent (s : List Char) :
    normalizeWord (normalizeWord s) = normalizeWord s := by
  have hmem : ∀ c ∈ normalizeWord s, isLowerAlnumCh c = true :=
    fun c hc => mem_normalizeWord hc
  have hq : ∀ c ∈ normalizeWord s, (!isQuoteCh c) = true := by
    intro c hc
    have hm := hmem c hc
    simp only [isLowerAlnumCh, Bool.or_eq_true, Bool.and_eq_true, decide_eq_true_eq] at hm
    simp only [isQuoteCh, Bool.not_eq_true', Bool.or_eq_false_iff,
      decide_eq_false_iff_not]
    omega
  have ha : ∀ c ∈ normalizeWord s, isAsciiAlnum c = true := by
    intro c hc
    have hm := hmem c hc
    simp only [isLowerAlnumCh, Bool.or_eq_true, Bool.and_eq_true, decide_eq_true_eq] at hm
    simp only [isAsciiAlnum, Bool.or_eq_true, Bool.and_eq_true, decide_eq_true_eq]
    omega
  have hs : ∀ c ∈ normalizeWord s, isSpaceJS c = false := by
    intro c hc
    have hm := hmem c hc
    simp only [isLowerAlnumCh, Bool.or_eq_true, Bool.and_eq_true, decide_eq_true_eq] at hm
    simp only [isSpaceJS, Bool.or_eq_false_iff, Bool.and_eq_false_iff,
      decide_eq_false_iff_not]
    omega
  conv_lhs => rw [normalizeWord]
  rw [toLowerStr_eq_self hmem, List.filter_eq_self.mpr hq,
    List.filter_eq_self.mpr ha, trimStr_eq_self hs]

/-! ## Reconstruction -/

theorem tokenizeRaw_reconstruct (cs : List Char) :
    ((tokenizeRaw cs).map RawToken.text).flatten = cs := by
  induction cs using tokenizeRaw.induct with
  | case1 => simp [tokenizeRaw]
  | case2 c cs h r ih =>
    have ih2 : (List.map RawToken.text (tokenizeRaw (List.span isSpaceJS cs).2)).flatten =
        (List.span isSpaceJS cs).2 := ih
    rw [tokenizeRaw, if_pos h]
    simp only [List.map_cons, List.flatten_cons, RawToken.text]
    rw [ih2, List.span_eq_take_drop]
    simp only [List.cons_append, List.takeWhile_append_dropWhile]
  | case3 c cs h1 h2 r ih =>
    have ih2 : (List.map RawToken.text (tokenizeRaw (wordSpan c cs).2)).flatten =
        (wordSpan c cs).2 := ih
    rw [tokenizeRaw, if_neg h1, if_pos h2]
    simp only [List.map_cons, List.flatten_cons, RawToken.text]
    rw [ih2]
    exact wordSpan_append c cs
  | case4 c cs h1 h2 r ih =>
    have ih2 : (List.map RawToken.text
        (tokenizeRaw (List.span (fun d => !isAsciiAlnum d && !isSpaceJS d) cs).2)).flatten =
        (List.span (fun d => !isAsciiAlnum d && !isSpaceJS d) cs).2 := ih
    rw [tokenizeRaw, if_neg h1, if_neg h2]
    simp only [List.map_cons, List.flatten_cons, RawToken.text]
    rw [ih2, List.span_eq_take_drop]
    simp only [List.cons_append, List.takeWhile_append_dropWhile]

theorem attachRaw_map_text (wds : List WordDisplayE) (raws : List RawToken) :
    ∀ wi, (attachRaw wds raws wi).map Token.text = raws.map RawToken.text := by
  induction raws with
  | nil => intro wi; rfl
  | cons t rest ih =>
    intro wi
    cases t with
    | space s => simp [attachRaw, Token.text, RawToken.text, ih]
    | word s => simp [attachRaw, Token.text, RawToken.text, ih]
    | punct s => simp [attachRaw, Token.text, RawToken.text, ih]

/--
**C8.** For every input string, concatenating the text fields of the
tokens produced by the tokenizer (`tokenizeAndAttach`), in order, yields
the original input string exactly.
-/
theorem c8_tokenizer_reconstruction (text : List Char) (wds : List WordDisplayE) :
    ((tokenizeAndAttach text wds).map Token.text).flatten = text := by
  unfold tokenizeAndAttach
  rw [attachRaw_map_text]
  exact tokenizeRaw_reconstruct text

/-! ## Item-level timing (C6) -/

/--
**C6.** Item-level (fallback) timing: each numeric or numeric-string bound
is divided by 1000 exactly when its value exceeds 1000 and is kept
unchanged otherwise (`start=1500, end=2300` resolves to
`{startSec:1.5, endSec:2.3}`; `start=1.5, end=2.3` is unchanged), and the
resolver returns no interval when either bound is missing or non-finite.
-/
theorem c6_unit_heuristic :
    (∀ q : ℚ, toNumberSec (.num (.fin q)) = some (if 1000 < q then q / 1000 else q)) ∧
    (∀ s : List Char, toNumberSec (.str s) =
      match jsParseNumber s with
      | .fin q => some (if 1000 < q then q / 1000 else q)
      | _ => none) ∧
    toNumberSec (.num .nan) = none ∧
    toNumberSec (.num .inf) = none ∧
    toNumberSec (.num .ninf) = none ∧
    toNumberSec .null = none ∧
    toNumberSec .undef = none ∧
    (∀ q : ℚ, timingFromItemE (.obj [("end_time", .num (.fin q))]) = .ok none) ∧
    (∀ q : ℚ, timingFromItemE (.obj [("start_time", .num (.fin q))]) = .ok none) ∧
    (∀ q : ℚ, timingFromItemE
      (.obj [("start_time", .num .nan), ("end_time", .num (.fin q))]) = .ok none) ∧
    (∀ q : ℚ, timingFromItemE
      (.obj [("start_time", .num .inf), ("end_time", .num (.fin q))]) = .ok none) ∧
    timingFromItemE (.obj [("start_time", .num (.fin 1500)), ("end_time", .num (.fin 2300))]) =
      .ok (some ⟨.fin (3/2), .fin (23/10)⟩) ∧
    timingFromItemE (.obj [("start_time", .str "1500".toList), ("end_time", .str "2300".toList)]) =
      .ok (some ⟨.fin (3/2), .fin (23/10)⟩) ∧
    timingFromItemE (.obj [("start_time", .num (.fin (3/2))), ("end_time", .num (.fin (23/10)))]) =
      .ok (some ⟨.fin (3/2), .fin (23/10)⟩) := by
  refine ⟨fun q => rfl, fun s => ?_, rfl, rfl, rfl, rfl, rfl, fun q => ?_, fun q => ?_,
    fun q => ?_, fun q => ?_, ?_, ?_, ?_⟩
  · simp only [toNumberSec, JsVal.nullish]
    rcases jsParseNumber s with _ | _ | _ | q <;> rfl
  · simp [timingFromItemE, JsVal.jsGet, JsVal.jsGetOpt, JsVal.lookupField, toNumberSec,
      JsVal.nullish, bind, Except.instMonad, Except.bind, pure, Except.pure]
  · simp [timingFromItemE, JsVal.jsGet, JsVal.jsGetOpt, JsVal.lookupField, toNumberSec,
      JsVal.nullish, bind, Except.instMonad, Except.bind, pure, Except.pure]
  · simp [timingFromItemE, JsVal.jsGet, JsVal.jsGetOpt, JsVal.lookupField, toNumberSec,
      JsVal.nullish, bind, Except.instMonad, Except.bind, pure, Except.pure]
  · simp [timingFromItemE, JsVal.jsGet, JsVal.jsGetOpt, JsVal.lookupField, toNumberSec,
      JsVal.nullish, bind, Except.instMonad, Except.bind, pure, Except.pure]
  · simp [timingFromItemE, JsVal.jsGet, JsVal.jsGetOpt, JsVal.lookupField, toNumberSec,
      JsVal.nullish, bind, Except.instMonad, Except.bind, pure, Except.pure]
    norm_num
  · simp [timingFromItemE, JsVal.jsGet, JsVal.jsGetOpt, JsVal.lookupField, toNumberSec,
      JsVal.nullish, bind, Except.instMonad, Except.bind, pure, Except.pure, jsParseNumber,
      trimStr, isSpaceJS, splitExp, parseMant, natOfDigits]
    norm_num
  · simp [timingFromItemE, JsVal.jsGet, JsVal.jsGetOpt, JsVal.lookupField, toNumberSec,
      JsVal.nullish, bind, Except.instMonad, Except.bind, pure, Except.pure]
    norm_num

/-! ## Phone-extent timing (C3) -/

/--
**C3.** For every score record whose phone list is non-empty and whose
first and last phone records carry numeric extent bounds, the phone-extent
resolver returns `startSec = max(0, extent_first[0] * 0.01)` and
`endSec = max(startSec + 0.02, extent_last[1] * 0.01)`; in particular when
the raw end yields `endSec ≤ startSec + 0.02` it returns
`endSec = startSec + 0.02` exactly, and extents `[0,50]`, `[50,120]`
resolve to `{startSec: 0.0, endSec: 1.2}`.
-/
theorem c3_phone_extent_formula (first : JsVal) (rest : List JsVal)
    (sx ex : List JsVal) (a b : JsNum)
    (h2 : first.jsGetOpt "extent" = .arr sx)
    (h3 : (rest.getLastD first).jsGetOpt "extent" = .arr ex)
    (h4 : sx.getD 0 .undef = .num a)
    (h5 : ex.getD 1 .undef = .num b) :
    timingFromPhoneExtents (first :: rest) =
      some ⟨JsNum.max2 (.fin 0) (a.mul (.fin (1/100))),
            JsNum.max2 ((JsNum.max2 (.fin 0) (a.mul (.fin (1/100)))).add (.fin (1/50)))
              (b.mul (.fin (1/100)))⟩ ∧
    (∀ qa qb : ℚ, a = .fin qa → b = .fin qb →
      qb * (1/100) ≤ max 0 (qa * (1/100)) + 1/50 →
      timingFromPhoneExtents (first :: rest) =
        some ⟨.fin (max 0 (qa * (1/100))), .fin (max 0 (qa * (1/100)) + 1/50)⟩) ∧
    timingFromPhoneExtents
      [.obj [("extent", .arr [.num (.fin 0), .num (.fin 50)])],
       .obj [("extent", .arr [.num (.fin 50), .num (.fin 120)])]] =
      some ⟨.fin 0, .fin (6/5)⟩ := by
  have hmain : timingFromPhoneExtents (first :: rest) =
      some ⟨JsNum.max2 (.fin 0) (a.mul (.fin (1/100))),
            JsNum.max2 ((JsNum.max2 (.fin 0) (a.mul (.fin (1/100)))).add (.fin (1/50)))
              (b.mul (.fin (1/100)))⟩ := by
    simp only [timingFromPhoneExtents, h2, h3, h4, h5]
  refine ⟨hmain, fun qa qb ha hb hle => ?_, ?_⟩
  · subst ha hb
    rw [hmain]
    simp only [JsNum.mul, JsNum.max2, JsNum.add]
    rw [max_eq_left hle]
  · simp [timingFromPhoneExtents, JsVal.jsGetOpt, JsVal.lookupField, List.getD,
      JsNum.mul, JsNum.max2, JsNum.add]
    norm_num

/-- Witness for C3: the hypotheses hold for the `[0,50]`, `[50,120]` records. -/
theorem c3_phone_extent_formula_witness :
    timingFromPhoneExtents
      [.obj [("extent", .arr [.num (.fin 0), .num (.fin 50)])],
       .obj [("extent", .arr [.num (.fin 50), .num (.fin 120)])]] =
      some ⟨JsNum.max2 (.fin 0) ((JsNum.fin 0).mul (.fin (1/100))),
            JsNum.max2 ((JsNum.max2 (.fin 0) ((JsNum.fin 0).mul (.fin (1/100)))).add (.fin (1/50)))
              ((JsNum.fin 120).mul (.fin (1/100)))⟩ :=
  (c3_phone_extent_formula (.obj [("extent", .arr [.num (.fin 0), .num (.fin 50)])])
    [.obj [("extent", .arr [.num (.fin 50), .num (.fin 120)])]]
    [.num (.fin 0), .num (.fin 50)] [.num (.fin 50), .num (.fin 120)]
    (.fin 0) (.fin 120) rfl rfl rfl rfl).1

/-! ## Interval invariants (C7) -/

theorem timingFromPhoneExtents_shape (l : List JsVal) (t : WordTiming)
    (h : timingFromPhoneExtents l = some t) :
    ∃ a b : JsNum,
      t.startSec = JsNum.max2 (.fin 0) (a.mul (.fin (1/100))) ∧
      t.endSec = JsNum.max2 (t.startSec.add (.fin (1/50))) (b.mul (.fin (1/100))) := by
  cases l with
  | nil => simp [timingFromPhoneExtents] at h
  | cons first rest =>
    simp only [timingFromPhoneExtents] at h
    split at h
    · split at h
      · rw [Option.some_inj] at h
        subst h
        exact ⟨_, _, rfl, rfl⟩
      · exact absurd h (by simp)
    · exact absurd h (by simp)

theorem timingFromItemE_shape (item : JsVal) (t : WordTiming)
    (h : timingFromItemE item = .ok (some t)) :
    ∃ s e : ℚ, t.startSec = .fin (max 0 s) ∧ t.endSec = .fin (max 0 e) := by
  simp only [timingFromItemE, bind, Except.instMonad, Except.bind, pure, Except.pure] at h
  repeat' split at h
  all_goals
    first
    | (rw [Except.ok.injEq, Option.some_inj] at h
       subst h
       exact ⟨_, _, rfl, rfl⟩)
    | exact absurd h (by simp)

theorem max2_fin0_nonneg {u : JsNum} {qa : ℚ}
    (h : JsNum.max2 (.fin 0) u = .fin qa) : 0 ≤ qa := by
  rcases u with _ | _ | _ | x <;> simp [JsNum.max2] at h
  · linarith
  · have : (0:ℚ) ≤ max 0 x := le_max_left 0 x
    linarith

theorem max2_addw_gt {u : JsNum} {qa qb : ℚ}
    (h : JsNum.max2 (.fin (qa + 1/50)) u = .fin qb) : qa < qb := by
  rcases u with _ | _ | _ | x <;> simp [JsNum.max2] at h
  · linarith
  · have h2 : qa + (50:ℚ)⁻¹ ≤ max (qa + (50:ℚ)⁻¹) x := le_max_left _ _
    rw [h] at h2
    have h3 : (0:ℚ) < (50:ℚ)⁻¹ := by norm_num
    linarith

/--
**C7 (counterexample).** The claim that every non-null `TimeInterval`
produced by the Timing Resolver satisfies `startSec < endSec` fails on the
item-level path: `start_time = end_time = 1` produces the interval
`{startSec: 1, endSec: 1}` with `startSec < endSec` false.
-/
theorem c7_counterexample :
    timingFromItemE (.obj [("start_time", .num (.fin 1)), ("end_time", .num (.fin 1))]) =
      .ok (some ⟨.fin 1, .fin 1⟩) ∧
    ¬((JsNum.fin 1).ltb (.fin 1) = true) := by
  constructor
  · simp [timingFromItemE, JsVal.jsGet, JsVal.jsGetOpt, JsVal.lookupField, toNumberSec,
      JsVal.nullish, bind, Except.instMonad, Except.bind, pure, Except.pure]
  · simp [JsNum.ltb]

/--
**C7 (amended).** Every non-null interval the phone-extent path produces
with finite bounds satisfies `0 ≤ startSec < endSec`; every non-null
interval the item-level path produces has both bounds finite and ≥ 0, but
`startSec < endSec` is not guaranteed on that path.
-/
theorem c7_amended_interval_invariants :
    (∀ (l : List JsVal) (t : WordTiming) (qa qb : ℚ),
      timingFromPhoneExtents l = some t →
      t.startSec = .fin qa → t.endSec = .fin qb →
      0 ≤ qa ∧ qa < qb) ∧
    (∀ (item : JsVal) (t : WordTiming),
      timingFromItemE item = .ok (some t) →
      ∃ qs qe : ℚ, t.startSec = .fin qs ∧ t.endSec = .fin qe ∧ 0 ≤ qs ∧ 0 ≤ qe) := by
  constructor
  · intro l t qa qb h hs he
    obtain ⟨a, b, ha, hb⟩ := timingFromPhoneExtents_shape l t h
    rw [hs] at ha hb
    rw [he] at hb
    refine ⟨max2_fin0_nonneg ha.symm, ?_⟩
    have hb2 : JsNum.fin qb = JsNum.max2 (.fin (qa + 1/50)) (b.mul (.fin (1/100))) := by
      rw [hb]
      simp [JsNum.add]
    exact max2_addw_gt hb2.symm
  · intro item t h
    obtain ⟨s, e, hs, he⟩ := timingFromItemE_shape item t h
    exact ⟨max 0 s, max 0 e, hs, he, le_max_left 0 s, le_max_left 0 e⟩

/-- Witness for C7 (amended): the phone-path bound holds at the `[0,50]`, `[50,120]` records. -/
theorem c7_amended_interval_invariants_witness : (0:ℚ) ≤ 0 ∧ (0:ℚ) < 6/5 :=
  c7_amended_interval_invariants.1
    [.obj [("extent", .arr [.num (.fin 0), .num (.fin 50)])],
     .obj [("extent", .arr [.num (.fin 50), .num (.fin 120)])]]
    ⟨.fin 0, .fin (6/5)⟩ 0 (6/5)
    (by simp [timingFromPhoneExtents, JsVal.jsGetOpt, JsVal.lookupField, List.getD,
          JsNum.mul, JsNum.max2, JsNum.add]
        norm_num)
    rfl rfl

/-! ## Score extractor (C5) -/

/-- The four probed field paths of `getWordScoreList`, in probe order. -/
def scoreListCandidates (speechace : JsVal) : List JsVal :=
  [((speechace.jsGetOpt "text_score").jsGetOpt "speechace_score").jsGetOpt "word_score_list",
   (speechace.jsGetOpt "text_score").jsGetOpt "word_score_list",
   (speechace.jsGetOpt "speechace_score").jsGetOpt "word_score_list",
   speechace.jsGetOpt "word_score_list"]

/--
Modelled from the spec's words, for comparison with the source extractor:
"attempts a fixed, ordered list of known field paths … and returns the
first one found that is a list; if none match, returns an empty list."
-/
def specGetWordScoreList (speechace : JsVal) : List JsVal :=
  match (scoreListCandidates speechace).find? JsVal.isArr with
  | some (.arr xs) => xs
  | _ => []

theorem nullish_not_isArr {c : JsVal} (h : c.nullish = true) : c.isArr = false := by
  rcases c with _ | _ | b | n | s | xs | fs <;> simp_all [JsVal.nullish, JsVal.isArr]

theorem coalesce_chain_eq_firstList (l : List JsVal)
    (h : ∀ c ∈ l, c.nullish = true ∨ c.isArr = true) :
    (match l.foldr JsVal.jsCoalesce .null with
     | JsVal.arr xs => xs
     | _ => []) =
    (match l.find? JsVal.isArr with
     | some (.arr xs) => xs
     | _ => []) := by
  induction l with
  | nil => rfl
  | cons c rest ih =>
    rcases h c (List.mem_cons_self c rest) with hn | ha
    · have harr := nullish_not_isArr hn
      simp only [List.foldr_cons, JsVal.jsCoalesce, hn, if_true, List.find?_cons, harr]
      exact ih (fun d hd => h d (List.mem_cons_of_mem c hd))
    · rcases c with _ | _ | b | n | s | xs | fs <;> simp [JsVal.isArr] at ha
      simp [List.find?_cons, JsVal.jsCoalesce, JsVal.nullish, JsVal.isArr]

/--
**C5 (counterexample).** The extractor does not return "the first
candidate that is a list": with a non-null, non-list value on the first
path and a list at the top level, the source returns `[]` while the first
list among the candidates is non-empty.
-/
theorem c5_counterexample :
    getWordScoreList
      (.obj [("text_score", .obj [("speechace_score",
          .obj [("word_score_list", .num (.fin 1))])]),
        ("word_score_list", .arr [.null])]) = [] ∧
    specGetWordScoreList
      (.obj [("text_score", .obj [("speechace_score",
          .obj [("word_score_list", .num (.fin 1))])]),
        ("word_score_list", .arr [.null])]) = [.null] ∧
    ([] : List JsVal) ≠ [JsVal.null] := by
  refine ⟨rfl, rfl, ?_⟩
  intro h
  exact List.cons_ne_nil _ _ h.symm

/--
**C5 (amended).** `getWordScoreList` returns the first **non-nullish**
candidate when that candidate is a list and `[]` otherwise, and it never
throws (all accesses are `?.`-guarded, so the extractor is a total
function). In particular, whenever every probed path holds either a
nullish value or a list — every shape the spec enumerates — it returns
the first candidate that is a list, or `[]` when no path holds a list.
-/
theorem c5_amended_first_list (v : JsVal)
    (h : ∀ c ∈ scoreListCandidates v, c.nullish = true ∨ c.isArr = true) :
    getWordScoreList v = specGetWordScoreList v := by
  have hfold : getWordScoreList v =
      (match (scoreListCandidates v).foldr JsVal.jsCoalesce .null with
       | JsVal.arr xs => xs
       | _ => []) := rfl
  rw [hfold, specGetWordScoreList]
  exact coalesce_chain_eq_firstList _ h

/-- Witness for C5 (amended): a response with the list at the top level. -/
theorem c5_amended_first_list_witness :
    getWordScoreList (.obj [("word_score_list", .arr [.null])]) =
      specGetWordScoreList (.obj [("word_score_list", .arr [.null])]) :=
  c5_amended_first_list (.obj [("word_score_list", .arr [.null])])
    (by
      intro c hc
      simp only [scoreListCandidates, JsVal.jsGetOpt, JsVal.lookupField] at hc
      simp only [List.mem_cons, List.mem_singleton] at hc
      rcases hc with h1 | h1 | h1 | h1 | h1
      · subst h1
        simp [JsVal.nullish]
      · subst h1
        simp [JsVal.nullish]
      · subst h1
        simp [JsVal.nullish]
      · subst h1
        simp [JsVal.isArr]
      · exact absurd h1 (List.not_mem_nil c))

/-! ## Aligner window and cursor (C4) -/

/--
Position `m` is a window hit for normalized token text `norm`: the
normalized `word` field of `list[m]` evaluates (without a `TypeError`) to
`norm` and that is non-empty.
-/
def hitAt (list : List JsVal) (norm : List Char) (m : Nat) : Prop :=
  normalizeWordJs ((list.getD m .undef).jsGetOpt "word") = .ok norm ∧ norm ≠ []

/--
Position `m` is a window miss: the normalized `word` field of `list[m]`
evaluates without a `TypeError`, but to the empty string or to something
other than `norm`.
-/
def missAt (list : List JsVal) (norm : List Char) (m : Nat) : Prop :=
  ∃ w, normalizeWordJs ((list.getD m .undef).jsGetOpt "word") = .ok w ∧
    (w = [] ∨ w ≠ norm)

theorem isEmpty_false_of_ne_nil {w : List Char} (h : w ≠ []) : w.isEmpty = false := by
  cases w
  · exact absurd rfl h
  · rfl

theorem ne_nil_of_isEmpty_false {w : List Char} (h : w.isEmpty = false) : w ≠ [] := by
  cases w <;> simp_all

theorem miss_of_not_hitb {w norm : List Char}
    (hhit : ¬(!w.isEmpty && decide (w = norm)) = true) : w = [] ∨ w ≠ norm := by
  by_cases hw0 : w = []
  · exact Or.inl hw0
  · right
    intro hcontra
    subst hcontra
    exact hhit (by simp [isEmpty_false_of_ne_nil hw0])

theorem windowScan_ok_some (list : List JsVal) (norm : List Char) (i : Nat)
    (k stop : Nat) (h : windowScan list norm k stop = .ok (some i)) :
    k ≤ i ∧ i < stop ∧ hitAt list norm i ∧
      ∀ m, k ≤ m → m < i → missAt list norm m := by
  induction k, stop using windowScan.induct list norm with
  | case1 k stop hlt ih =>
    rw [windowScan, if_pos hlt] at h
    rcases hw : normalizeWordJs ((list.getD k .undef).jsGetOpt "word") with e | w
    · rw [hw] at h
      exact absurd h (by simp [Bind.bind, Except.bind])
    · rw [hw] at h
      simp only [Bind.bind, Except.bind] at h
      by_cases hhit : (!w.isEmpty && decide (w = norm)) = true
      · rw [if_pos hhit] at h
        simp only [pure, Except.pure, Except.ok.injEq, Option.some_inj] at h
        obtain rfl : i = k := h.symm
        simp only [Bool.and_eq_true, Bool.not_eq_true', decide_eq_true_eq] at hhit
        rcases hhit with ⟨hne, heq⟩
        subst heq
        exact ⟨le_refl _, hlt, ⟨hw, ne_nil_of_isEmpty_false hne⟩,
          fun m hm1 hm2 => absurd (lt_of_le_of_lt hm1 hm2) (lt_irrefl _)⟩
      · rw [if_neg hhit] at h
        obtain ⟨h1, h2, h3, h4⟩ := ih h
        refine ⟨by omega, h2, h3, fun m hm1 hm2 => ?_⟩
        rcases Nat.eq_or_lt_of_le hm1 with rfl | hlt2
        · exact ⟨w, hw, miss_of_not_hitb hhit⟩
        · exact h4 m hlt2 hm2
  | case2 k stop hlt =>
    rw [windowScan, if_neg hlt] at h
    exact absurd h (by simp [pure, Except.pure])

theorem windowScan_ok_none (list : List JsVal) (norm : List Char)
    (k stop : Nat) (h : windowScan list norm k stop = .ok none) :
    ∀ m, k ≤ m → m < stop → missAt list norm m := by
  induction k, stop using windowScan.induct list norm with
  | case1 k stop hlt ih =>
    rw [windowScan, if_pos hlt] at h
    rcases hw : normalizeWordJs ((list.getD k .undef).jsGetOpt "word") with e | w
    · rw [hw] at h
      exact absurd h (by simp [Bind.bind, Except.bind])
    · rw [hw] at h
      simp only [Bind.bind, Except.bind] at h
      by_cases hhit : (!w.isEmpty && decide (w = norm)) = true
      · rw [if_pos hhit] at h
        exact absurd h (by simp [pure, Except.pure])
      · rw [if_neg hhit] at h
        intro m hm1 hm2
        rcases Nat.eq_or_lt_of_le hm1 with rfl | hlt2
        · exact ⟨w, hw, miss_of_not_hitb hhit⟩
        · exact ih h m hlt2 hm2
  | case2 k stop hlt =>
    intro m hm1 hm2
    omega

/--
**C4.** For each word token processed with cursor `j`, the aligner scans
score positions `j .. j+3` only (bounded by the list length), attaches the
earliest record whose normalized word equals the token's normalized text
and sets the cursor to that position plus one; if no position in the
window matches, it attaches the record at position `j` (when a truthy one
exists) and advances the cursor to `j + 1`; the cursor strictly increases,
hence is non-decreasing across one pass.
-/
theorem c4_bounded_window_monotonic_cursor (list : List JsVal) (j : Nat) (raw : List Char)
    (picked : Option JsVal) (j' : Nat)
    (h : alignStep list j raw = .ok (picked, j')) :
    j < j' ∧
    ((∃ k, j ≤ k ∧ k < min list.length (j + 4) ∧
        hitAt list (normalizeWord raw) k ∧
        (∀ m, j ≤ m → m < k → missAt list (normalizeWord raw) m) ∧
        picked = some (list.getD k .undef) ∧ j' = k + 1) ∨
      ((∀ m, j ≤ m → m < min list.length (j + 4) → missAt list (normalizeWord raw) m) ∧
        picked = (match list[j]? with
          | some v => if v.truthy then some v else none
          | none => none) ∧
        j' = j + 1)) := by
  rw [alignStep] at h
  simp only [Bind.bind, Except.bind] at h
  rcases hws : windowScan list (normalizeWord raw) j (min list.length (j + 4)) with e | r
  · rw [hws] at h
    exact absurd h (by simp)
  · rw [hws] at h
    rcases r with _ | k
    · simp only [pure, Except.pure, Except.ok.injEq, Prod.mk.injEq] at h
      obtain ⟨hp, hj⟩ := h
      exact ⟨by omega, Or.inr ⟨windowScan_ok_none _ _ _ _ hws, hp.symm, hj.symm⟩⟩
    · simp only [pure, Except.pure, Except.ok.injEq, Prod.mk.injEq] at h
      obtain ⟨hp, hj⟩ := h
      obtain ⟨h1, h2, h3, h4⟩ := windowScan_ok_some _ _ _ _ _ hws
      exact ⟨by omega, Or.inl ⟨k, h1, h2, h3, h4, hp.symm, hj.symm⟩⟩

/-- A one-record score list whose word is "a". -/
def wordRecA : JsVal := .obj [("word", .str ['a'])]

/-- Witness for C4: aligning token "a" at cursor 0 against `[wordRecA]`. -/
theorem c4_bounded_window_monotonic_cursor_witness :
    alignStep [wordRecA] 0 ['a'] = .ok (some wordRecA, 1) ∧ 0 < 1 :=
  ⟨by simp [alignStep, windowScan, normalizeWordJs, normalizeWord, wordRecA, JsVal.jsGetOpt,
      JsVal.lookupField, JsVal.jsOr, JsVal.truthy, toLowerStr, trimStr, isSpaceJS, isQuoteCh,
      isAsciiAlnum, List.getD, bind, Except.bind, pure, Except.pure, Char.toLower],
   (c4_bounded_window_monotonic_cursor [wordRecA] 0 ['a'] (some wordRecA) 1
      (by simp [alignStep, windowScan, normalizeWordJs, normalizeWord, wordRecA, JsVal.jsGetOpt,
        JsVal.lookupField, JsVal.jsOr, JsVal.truthy, toLowerStr, trimStr, isSpaceJS, isQuoteCh,
        isAsciiAlnum, List.getD, bind, Except.bind, pure, Except.pure, Char.toLower])).1⟩

/-! ## Alignment pass totals (C1) -/

/-- A scoring response whose extracted list holds exactly `wordRecA`. -/
def speechaceOneRec : JsVal := .obj [("word_score_list", .arr [wordRecA])]

/-- A scoring response whose extracted list is empty. -/
def speechaceNoRec : JsVal := .obj [("word_score_list", .arr [])]

/--
**C1.** Claimed: one alignment pass produces exactly one WordDisplay per
word token, and a word token for which the score list is exhausted still
receives a WordDisplay with `quality = null` and `timing = null`. The code
does neither: on text "a b" (two word tokens) with a one-record list, the
pass reaches cursor 1 with the list exhausted, `picked` becomes `null`,
and the fallback `timingFromItem(picked)` dereferences `null.start_time` —
a `TypeError` — instead of emitting a null-field WordDisplay; and with an
empty score list the pass returns no WordDisplays at all for the two word
tokens.
-/
theorem c1_exhausted_list_behaviour :
    buildWordDisplays ['a', ' ', 'b'] speechaceOneRec = .error () ∧
    buildWordDisplays ['a', ' ', 'b'] speechaceNoRec = .ok [] ∧
    (matchWords ['a', ' ', 'b']).length = 2 := by
  refine ⟨?_, ?_, ?_⟩
  · simp [buildWordDisplays, getWordScoreList, speechaceOneRec, wordRecA, trimStr, isSpaceJS,
      matchWords, wordSpan, isAsciiAlnum, isApostrophe, buildLoop, alignStep, windowScan,
      normalizeWordJs, normalizeWord, toLowerStr, isQuoteCh, JsVal.jsGetOpt, JsVal.lookupField,
      JsVal.jsOr, JsVal.jsCoalesce, JsVal.nullish, JsVal.truthy, pickQuality, numField,
      pickedField, pickPhonesRaw, computeTiming, timingFromPhoneExtents, timingFromItemE,
      JsVal.jsGet, toNumberSec, List.getD, bind, Except.bind, pure, Except.pure, Char.toLower,
      List.span_eq_take_drop, List.takeWhile, List.dropWhile]
  · simp [buildWordDisplays, getWordScoreList, speechaceNoRec, JsVal.jsGetOpt,
      JsVal.lookupField, JsVal.jsCoalesce, JsVal.nullish, pure, Except.pure]
  · simp [matchWords, wordSpan, isAsciiAlnum, isApostrophe, List.span_eq_take_drop,
      List.takeWhile, List.dropWhile]

/-! ## Playback cancellation (C2) -/

theorem playSegment_eq (s : SchedState) (a1 a2 : JsNum) :
    playSegment s a1 a2 =
      { playToken := s.playToken + 1,
        segment := some (a2, s.playToken + 1),
        segTimer := some s.nextId,
        timers := (stopSegmentTimer s).timers ++ [(s.nextId, s.playToken + 1)],
        nextId := s.nextId + 1,
        actions := s.actions ++
          [.pauseDirect, .seek (JsNum.max2 (.fin 0) a1), .play] } := by
  rcases hseg : s.segTimer with _ | id <;>
    simp [playSegment, stopSegmentTimer, hseg]

theorem stopSegmentTimer_timers_subset (s : SchedState) :
    ∀ p ∈ (stopSegmentTimer s).timers, p ∈ s.timers := by
  intro p hp
  rcases hseg : s.segTimer with _ | id <;> simp [stopSegmentTimer, hseg] at hp
  · exact hp
  · exact hp.1

/--
**C2.** If `playInterval` is called for interval A and then again for
interval B before A's stop-timer has fired, only B's stop-timer ever
pauses the audio: delivering A's (already superseded and cleared) timer
handle leaves the state unchanged, delivering any handle other than B's
appends no pause action, and delivering B's handle pauses exactly once.
Holds for every well-formed starting state (fresh handles, minted tokens).
-/
theorem c2_latest_wins (s : SchedState) (hinv : SchedInv s) (a1 a2 b1 b2 : JsNum) :
    (fireTimer (playSegment (playSegment s a1 a2) b1 b2) s.nextId =
      playSegment (playSegment s a1 a2) b1 b2) ∧
    (∀ id, id ≠ s.nextId + 1 →
      (fireTimer (playSegment (playSegment s a1 a2) b1 b2) id).actions =
        (playSegment (playSegment s a1 a2) b1 b2).actions) ∧
    ((fireTimer (playSegment (playSegment s a1 a2) b1 b2) (s.nextId + 1)).actions =
      (playSegment (playSegment s a1 a2) b1 b2).actions ++
        [.pauseTimer (s.nextId + 1)]) := by
  obtain ⟨hts, _⟩ := hinv
  have h1 := playSegment_eq s a1 a2
  have h2 := playSegment_eq (playSegment s a1 a2) b1 b2
  set s1 := playSegment s a1 a2 with hs1def
  set s2 := playSegment s1 b1 b2 with hs2def
  have hs1timers : s1.timers = (stopSegmentTimer s).timers ++ [(s.nextId, s.playToken + 1)] := by
    rw [h1]
  have hs1nextId : s1.nextId = s.nextId + 1 := by rw [h1]
  have hs1token : s1.playToken = s.playToken + 1 := by rw [h1]
  have hs1segTimer : s1.segTimer = some s.nextId := by rw [h1]
  have hstop1 : (stopSegmentTimer s1).timers =
      s1.timers.filter (fun t => t.1 ≠ s.nextId) := by
    simp [stopSegmentTimer, hs1segTimer]
  have hs2timers : s2.timers =
      s1.timers.filter (fun t => t.1 ≠ s.nextId) ++ [(s.nextId + 1, s.playToken + 2)] := by
    rw [h2, hstop1, hs1nextId, hs1token]
  have hs2segment : s2.segment = some (b2, s.playToken + 2) := by
    rw [h2, hs1token]
  have hmem : ∀ p ∈ s2.timers,
      (p ∈ s.timers ∧ p.1 ≠ s.nextId) ∨ p = (s.nextId + 1, s.playToken + 2) := by
    intro p hp
    rw [hs2timers] at hp
    rcases List.mem_append.mp hp with hp1 | hp2
    · have hf := List.mem_filter.mp hp1
      rw [hs1timers] at hf
      rcases List.mem_append.mp hf.1 with hq1 | hq2
      · exact Or.inl ⟨stopSegmentTimer_timers_subset s p hq1, by simpa using hf.2⟩
      · exfalso
        have : p = (s.nextId, s.playToken + 1) := by simpa using hq2
        have h3 := hf.2
        rw [this] at h3
        simp at h3
    · exact Or.inr (by simpa using hp2)
  have hA : ∀ p ∈ s2.timers, ¬(p.1 = s.nextId) := by
    intro p hp
    rcases hmem p hp with ⟨_, hne⟩ | heq
    · exact hne
    · rw [heq]
      simp
  have hB : ∀ p ∈ s2.timers, p.1 ≠ s.nextId + 1 → p.2 ≠ s.playToken + 2 := by
    intro p hp hne
    rcases hmem p hp with ⟨hmem2, _⟩ | heq
    · have := (hts p hmem2).1
      omega
    · rw [heq] at hne
      simp at hne
  have hC : s2.timers.find? (fun t => t.1 = s.nextId + 1) =
      some (s.nextId + 1, s.playToken + 2) := by
    rw [hs2timers, List.find?_append]
    have hnone : (s1.timers.filter (fun t => t.1 ≠ s.nextId)).find?
        (fun t => t.1 = s.nextId + 1) = none := by
      rw [List.find?_eq_none]
      intro p hp
      have hf := List.mem_filter.mp hp
      rw [hs1timers] at hf
      rcases List.mem_append.mp hf.1 with hq1 | hq2
      · have := (hts p (stopSegmentTimer_timers_subset s p hq1)).2
        simp only [decide_eq_true_eq]
        omega
      · have : p = (s.nextId, s.playToken + 1) := by simpa using hq2
        rw [this]
        simp
    rw [hnone]
    simp [List.find?]
  refine ⟨?_, ?_, ?_⟩
  · have hfind : s2.timers.find? (fun t => t.1 = s.nextId) = none := by
      rw [List.find?_eq_none]
      intro p hp
      simpa using hA p hp
    simp [fireTimer, hfind]
  · intro id hid
    rcases hfind : s2.timers.find? (fun t => t.1 = id) with _ | p
    · simp [fireTimer, hfind]
    · have hp1 : p.1 = id := by simpa using List.find?_some hfind
      have hpmem := List.mem_of_find?_eq_some hfind
      have hp2 : p.2 ≠ s.playToken + 2 := hB p hpmem (by omega)
      rcases p with ⟨i0, tok⟩
      simp only at hp2
      have hcond : ¬(s.playToken + 2 = tok) := by omega
      simp [fireTimer, hfind, hs2segment, hcond]
  · rcases hfind2 : s2.timers.find? (fun t => t.1 = s.nextId + 1) with _ | p
    · rw [hC] at hfind2
      exact absurd hfind2 (by simp)
    · rw [hC] at hfind2
      have hp : p = (s.nextId + 1, s.playToken + 2) := by
        simpa using hfind2.symm
      subst hp
      simp [fireTimer, hC, hs2segment]

/-- The initial scheduler state: no playback yet, no timers. -/
def initSched : SchedState :=
  { playToken := 0, segment := none, segTimer := none,
    timers := [], nextId := 0, actions := [] }

/-- Witness for C2: two back-to-back plays from the initial state. -/
theorem c2_latest_wins_witness :
    (fireTimer (playSegment (playSegment initSched (.fin 0) (.fin 1)) (.fin 2) (.fin 3))
        initSched.nextId =
      playSegment (playSegment initSched (.fin 0) (.fin 1)) (.fin 2) (.fin 3)) ∧
    (∀ id, id ≠ initSched.nextId + 1 →
      (fireTimer (playSegment (playSegment initSched (.fin 0) (.fin 1)) (.fin 2) (.fin 3))
          id).actions =
        (playSegment (playSegment initSched (.fin 0) (.fin 1)) (.fin 2) (.fin 3)).actions) ∧
    ((fireTimer (playSegment (playSegment initSched (.fin 0) (.fin 1)) (.fin 2) (.fin 3))
        (initSched.nextId + 1)).actions =
      (playSegment (playSegment initSched (.fin 0) (.fin 1)) (.fin 2) (.fin 3)).actions ++
        [.pauseTimer (initSched.nextId + 1)]) :=
  c2_latest_wins initSched (by constructor <;> simp [initSched]) (.fin 0) (.fin 1) (.fin 2) (.fin 3)

/-! ## No-timing playback signal (C9) -/

theorem stopSegmentTimer_actions (s : SchedState) :
    (stopSegmentTimer s).actions = s.actions := by
  rcases hseg : s.segTimer with _ | id <;> simp [stopSegmentTimer, hseg]

/--
**C9 (counterexample).** The claim that a playback request for a
`WordDisplay` with null timing always raises the no-timing signal fails
when `ensureFreshAudioUrl()` yields no URL: `playWord` then returns
silently — no signal — although `timing` is null.
-/
theorem c9_counterexample :
    (playWord initSched none ⟨0, ['a'], none, [], none⟩).errNoTiming = false ∧
    (⟨0, ['a'], none, [], none⟩ : WordDisplayE).timing = none :=
  ⟨rfl, rfl⟩

/--
**C9 (amended).** When the audio URL is obtained, requesting playback for
a `WordDisplay` whose timing is null raises the explicit no-timing failure
signal and performs no seek, no play and no pause on the audio resource
(only the pending stop-timer is cleared); when no URL is obtained the
request returns silently, with no signal and no audio action at all.
-/
theorem c9_amended_no_timing_signal (s : SchedState) (url : List Char) (w : WordDisplayE)
    (h : w.timing = none) :
    (playWord s (some url) w).errNoTiming = true ∧
    (playWord s (some url) w).state = stopSegmentTimer s ∧
    (playWord s (some url) w).state.actions = s.actions ∧
    (∀ w2 : WordDisplayE, (playWord s none w2).errNoTiming = false ∧
      (playWord s none w2).state = s) := by
  refine ⟨?_, ?_, ?_, fun w2 => ⟨rfl, rfl⟩⟩
  · simp [playWord, h]
  · simp [playWord, h]
  · simp [playWord, h, stopSegmentTimer_actions]

/-- Witness for C9 (amended): a null-timing display from the initial state. -/
theorem c9_amended_no_timing_signal_witness :
    (playWord initSched (some []) ⟨0, ['a'], none, [], none⟩).errNoTiming = true ∧
    (playWord initSched (some []) ⟨0, ['a'], none, [], none⟩).state =
      stopSegmentTimer initSched ∧
    (playWord initSched (some []) ⟨0, ['a'], none, [], none⟩).state.actions =
      initSched.actions ∧
    (∀ w2 : WordDisplayE, (playWord initSched none w2).errNoTiming = false ∧
      (playWord initSched none w2).state = initSched) :=
  c9_amended_no_timing_signal initSched [] ⟨0, ['a'], none, [], none⟩ rfl
